import Mathlib

/-!
Verification of the data aggregation and filtering core of the pizza-sales
dashboard (`pizza_sales_app.py`).

The embedding models one order line-item as a `Row` with the six schema
columns.  Monetary columns are modelled exactly as rationals; `order_date`
is a day ordinal (`ℕ`), already parsed at load time.

pandas semantics embedded here, each written from the source call sites:
* `df[df[col] == v]` — boolean-mask filtering; returns a fresh copy of the
  matching rows in dataset order (`List.filter`).
* `df.groupby(k).agg({v: "sum"})` — groups by the distinct values of `k`
  sorted ascending (pandas `groupby` default `sort=True`) and folds each
  group's column `v`; embedded as `aggregate`.
* `Series.idxmax` — label of the first occurrence of the maximal value;
  raises on an empty series, embedded as `Option` (`none` = the raise).
* `Series.max` — maximal value, `none` on an empty series.
* `Series.mean` — arithmetic mean; yields NaN on an empty series, embedded
  as `Option` (`none` = NaN).
-/

namespace PizzaSales

/-- One row of the dataset: an order line-item with the six schema columns
used by the app (`pizza_category`, `pizza_name`, `pizza_size`, `unit_price`,
`total_price`, `order_date`). -/
structure Row where
  pizza_category : String
  pizza_name : String
  pizza_size : String
  unit_price : ℚ
  total_price : ℚ
  order_date : ℕ
  deriving DecidableEq

/-- The in-memory dataset: a list of order line-items in file order. -/
abbrev Dataset := List Row

/-- The distinct values of a column, sorted ascending: the group keys that
pandas `groupby(column)` produces with its default `sort=True`. -/
def sortedKeys {K : Type} [LinearOrder K] [DecidableEq K] (l : List K) : List K :=
  List.insertionSort (fun a b => a ≤ b) l.dedup

theorem mem_sortedKeys {K : Type} [LinearOrder K] [DecidableEq K] {l : List K} {a : K} :
    a ∈ sortedKeys l ↔ a ∈ l :=
  ((List.perm_insertionSort (fun a b => a ≤ b) l.dedup).mem_iff).trans (List.mem_dedup)

theorem nodup_sortedKeys {K : Type} [LinearOrder K] [DecidableEq K] (l : List K) :
    (sortedKeys l).Nodup :=
  ((List.perm_insertionSort (fun a b => a ≤ b) l.dedup).nodup_iff).mpr (List.nodup_dedup l)

theorem sorted_le_sortedKeys {K : Type} [LinearOrder K] [DecidableEq K] (l : List K) :
    (sortedKeys l).Sorted (fun a b => a ≤ b) :=
  List.sorted_insertionSort (fun a b => a ≤ b) l.dedup

theorem pairwise_lt_sortedKeys {K : Type} [LinearOrder K] [DecidableEq K] (l : List K) :
    (sortedKeys l).Pairwise (fun a b => a < b) :=
  List.Sorted.lt_of_le (sorted_le_sortedKeys l) (nodup_sortedKeys l)

theorem sortedKeys_eq_nil_iff {K : Type} [LinearOrder K] [DecidableEq K] {l : List K} :
    sortedKeys l = [] ↔ l = [] := by
  rw [List.eq_nil_iff_forall_not_mem, List.eq_nil_iff_forall_not_mem]
  constructor
  · intro h a ha
    exact h a (mem_sortedKeys.mpr ha)
  · intro h a ha
    exact h a (mem_sortedKeys.mp ha)

/-- `view.groupby(key).agg(\x7bval: op\x7d).reset_index()`: for each distinct
key value of `view`, ascending, the pair of the key and `op` applied to the
`val` column of the rows carrying that key. -/
def aggregate {K : Type} [LinearOrder K] [DecidableEq K] (view : Dataset)
    (key : Row → K) (val : Row → ℚ) (op : List ℚ → ℚ) : List (K × ℚ) :=
  (sortedKeys (view.map key)).map
    (fun k => (k, op ((view.filter (fun r => decide (key r = k))).map val)))

theorem aggregate_map_fst {K : Type} [LinearOrder K] [DecidableEq K] (view : Dataset)
    (key : Row → K) (val : Row → ℚ) (op : List ℚ → ℚ) :
    (aggregate view key val op).map Prod.fst = sortedKeys (view.map key) := by
  rw [aggregate, List.map_map]
  exact List.map_id _

theorem mem_aggregate {K : Type} [LinearOrder K] [DecidableEq K] {view : Dataset}
    {key : Row → K} {val : Row → ℚ} {op : List ℚ → ℚ} {p : K × ℚ} :
    p ∈ aggregate view key val op ↔
      p.1 ∈ view.map key ∧
        p.2 = op ((view.filter (fun r => decide (key r = p.1))).map val) := by
  constructor
  · intro hp
    rcases List.mem_map.mp hp with ⟨k, hk, hpk⟩
    subst hpk
    exact ⟨mem_sortedKeys.mp hk, rfl⟩
  · intro ⟨h1, h2⟩
    refine List.mem_map.mpr ⟨p.1, mem_sortedKeys.mpr h1, ?_⟩
    exact Prod.ext rfl h2.symm

/-- `data[data["pizza_category"] == c]` (line 84 and line 135): boolean-mask
equality filtering on `pizza_category`; a fresh copy of the matching rows in
dataset order. -/
def filterByCategory (d : Dataset) (c : String) : Dataset :=
  d.filter (fun r => decide (r.pizza_category = c))

/-- `filtered_data["total_price"].sum()` (line 138). -/
def total_sales (view : Dataset) : ℚ :=
  (view.map (fun r => r.total_price)).sum

/-- `filtered_data["unit_price"].mean()` (line 139); pandas yields NaN on an
empty series, embedded as `none`. -/
def average_price (view : Dataset) : Option ℚ :=
  if view.length = 0 then none
  else some ((view.map (fun r => r.unit_price)).sum / (view.length : ℚ))

/-- `Series.idxmax` on a series given as (label, value) pairs: the label-value
pair of the first occurrence of the maximal value; pandas raises `ValueError`
on an empty series, embedded as `none`. -/
def idxmax {K : Type} : List (K × ℚ) → Option (K × ℚ)
  | [] => none
  | p :: rest =>
    match idxmax rest with
    | none => some p
    | some q => if p.2 < q.2 then some q else some p

/-- `Series.max` on the values of a series; `none` (NaN) on an empty series. -/
def seriesMax : List ℚ → Option ℚ
  | [] => none
  | v :: rest =>
    match seriesMax rest with
    | none => some v
    | some w => some (max v w)

/-- `filtered_data.groupby("pizza_name")["total_price"].sum()` (lines 140-141):
per-name totals, names ascending. -/
def groupSumByName (view : Dataset) : List (String × ℚ) :=
  aggregate view (fun r => r.pizza_name) (fun r => r.total_price) List.sum

/-- `filtered_data.groupby("pizza_name")["total_price"].sum().idxmax()`
(line 140). -/
def top_selling_pizza (view : Dataset) : Option String :=
  (idxmax (groupSumByName view)).map Prod.fst

/-- `filtered_data.groupby("pizza_name")["total_price"].sum().max()`
(line 141). -/
def top_pizza_sales (view : Dataset) : Option ℚ :=
  seriesMax ((groupSumByName view).map Prod.snd)

/-- `filtered_data.groupby("order_date")["total_price"].sum().reset_index()`
(line 157; line 99 is the same aggregation): the daily-sales time series,
dates ascending. -/
def sales_over_time (view : Dataset) : List (ℕ × ℚ) :=
  aggregate view (fun r => r.order_date) (fun r => r.total_price) List.sum

/-- Sum of `total_price` over the rows of `view` whose `pizza_name` is `n`. -/
def nameSum (view : Dataset) (n : String) : ℚ :=
  ((view.filter (fun r => decide (r.pizza_name = n))).map (fun r => r.total_price)).sum

/-- Sum of `total_price` over the rows of `view` whose `order_date` is `d`. -/
def dateSum (view : Dataset) (d : ℕ) : ℚ :=
  ((view.filter (fun r => decide (r.order_date = d))).map (fun r => r.total_price)).sum

/-- The loaded table as `load_data` sees it: its column names and whether the
`order_date` column has been converted to datetimes. -/
structure Table where
  columns : List String
  dates_parsed : Bool
  deriving DecidableEq

/-- `load_data` (lines 9-14): reads the CSV and, only when an `order_date`
column is present, converts it to datetimes; there is no other validation and
no error path, so a table with missing columns passes through unchanged. -/
def load_data (t : Table) : Table :=
  if "order_date" ∈ t.columns then { t with dates_parsed := true } else t

/-- Outputs of the Data Analysis page body. -/
structure AnalysisOutput where
  data_after : Dataset
  total_sales_out : ℚ
  average_price_out : Option ℚ
  top_selling_out : Option String
  top_sales_out : Option ℚ
  time_series_out : List (ℕ × ℚ)
  comparison_out : Option Dataset
  download_out : Dataset
  deriving DecidableEq

/-- `filtered_data["order_date"] = pd.to_datetime(filtered_data["order_date"])`
(lines 98 and 156): a column assignment on the frame value it is applied to;
the dates were already parsed at load, so the values are unchanged, and the
assignment touches only the copy produced by the boolean-mask filter, never
the frame it was filtered from. -/
def assignOrderDate (frame : Dataset) : Dataset :=
  frame.map (fun r => { r with order_date := r.order_date })

/-- `data_analysis` (lines 123-185) as a pure function of the loaded dataset
and the two UI selections: filters by category, computes the four metrics, the
daily time series, and — only when the multiselect list is non-empty
(`if compare:` at line 164) — the comparison view over the full dataset. -/
def data_analysis (d : Dataset) (category : String) (compare : List String) :
    AnalysisOutput :=
  let filtered_data := filterByCategory d category
  let ts := total_sales filtered_data
  let ap := average_price filtered_data
  let tsp := top_selling_pizza filtered_data
  let tps := top_pizza_sales filtered_data
  let filtered_data := assignOrderDate filtered_data
  let time_data := sales_over_time filtered_data
  let comparison :=
    if compare.isEmpty then none
    else some (d.filter (fun r => decide (r.pizza_name ∈ compare)))
  { data_after := d
    total_sales_out := ts
    average_price_out := ap
    top_selling_out := tsp
    top_sales_out := tps
    time_series_out := time_data
    comparison_out := comparison
    download_out := filtered_data }

/-- Outputs of the Data Visualization page body. -/
structure VisualizationOutput where
  data_after : Dataset
  bar_out : List (String × ℚ)
  pie_out : List (String × ℚ)
  line_out : List (ℕ × ℚ)
  table_out : Dataset
  deriving DecidableEq

/-- `data_visualization` (lines 60-121) as a pure function of the loaded
dataset and the selected category: the per-pizza bar series, the per-size pie
series, and the per-date line series over the filtered view. -/
def data_visualization (d : Dataset) (pizza_filter : String) : VisualizationOutput :=
  let filtered_data := filterByCategory d pizza_filter
  let total_sales_by_pizza :=
    aggregate filtered_data (fun r => r.pizza_name) (fun r => r.total_price) List.sum
  let sales_by_size :=
    aggregate filtered_data (fun r => r.pizza_size) (fun r => r.total_price) List.sum
  let filtered_data := assignOrderDate filtered_data
  let sales_over := sales_over_time filtered_data
  { data_after := d
    bar_out := total_sales_by_pizza
    pie_out := sales_by_size
    line_out := sales_over
    table_out := filtered_data }

/-- Worked dataset: two Margherita rows and one Veggie Supreme row. -/
def margherita1 : Row :=
  { pizza_category := "Classic", pizza_name := "Margherita", pizza_size := "M"
    unit_price := 10, total_price := 20, order_date := 1 }

def margherita2 : Row :=
  { pizza_category := "Classic", pizza_name := "Margherita", pizza_size := "M"
    unit_price := 10, total_price := 10, order_date := 2 }

def veggieSupreme : Row :=
  { pizza_category := "Veggie", pizza_name := "Veggie Supreme", pizza_size := "L"
    unit_price := 15, total_price := 15, order_date := 1 }

def scenarioData : Dataset := [margherita1, margherita2, veggieSupreme]

theorem idxmax_cons {K : Type} (p : K × ℚ) (rest : List (K × ℚ)) :
    idxmax (p :: rest) =
      match idxmax rest with
      | none => some p
      | some q => if p.2 < q.2 then some q else some p := rfl

theorem idxmax_cons_of_none {K : Type} (p : K × ℚ) (rest : List (K × ℚ))
    (h : idxmax rest = none) : idxmax (p :: rest) = some p := by
  rw [idxmax_cons, h]

theorem idxmax_cons_of_some {K : Type} (p : K × ℚ) (rest : List (K × ℚ)) (q : K × ℚ)
    (h : idxmax rest = some q) :
    idxmax (p :: rest) = if p.2 < q.2 then some q else some p := by
  rw [idxmax_cons, h]

theorem idxmax_eq_none {K : Type} {l : List (K × ℚ)} : idxmax l = none ↔ l = [] := by
  cases l with
  | nil => simp [idxmax]
  | cons p rest =>
    cases h : idxmax rest with
    | none => rw [idxmax_cons_of_none p rest h]; simp
    | some q =>
      rw [idxmax_cons_of_some p rest q h]
      by_cases hc : p.2 < q.2 <;> simp [hc]

theorem idxmax_mem {K : Type} :
    ∀ {l : List (K × ℚ)} {p : K × ℚ}, idxmax l = some p → p ∈ l := by
  intro l
  induction l with
  | nil => intro p h; simp [idxmax] at h
  | cons a rest ih =>
    intro p h
    cases hr : idxmax rest with
    | none =>
      rw [idxmax_cons_of_none a rest hr, Option.some.injEq] at h
      subst h
      exact List.mem_cons_self a rest
    | some q =>
      rw [idxmax_cons_of_some a rest q hr] at h
      by_cases hc : a.2 < q.2
      · rw [if_pos hc, Option.some.injEq] at h
        subst h
        exact List.mem_cons_of_mem a (ih hr)
      · rw [if_neg hc, Option.some.injEq] at h
        subst h
        exact List.mem_cons_self a rest

theorem idxmax_le {K : Type} :
    ∀ {l : List (K × ℚ)} {p : K × ℚ}, idxmax l = some p → ∀ q ∈ l, q.2 ≤ p.2 := by
  intro l
  induction l with
  | nil => intro p h; simp [idxmax] at h
  | cons a rest ih =>
    intro p h q hq
    cases hr : idxmax rest with
    | none =>
      rw [idxmax_cons_of_none a rest hr, Option.some.injEq] at h
      subst h
      rcases List.mem_cons.mp hq with hqa | hqr
      · exact le_of_eq (congrArg Prod.snd hqa)
      · rw [idxmax_eq_none.mp hr] at hqr
        exact absurd hqr (List.not_mem_nil q)
    | some m =>
      rw [idxmax_cons_of_some a rest m hr] at h
      by_cases hc : a.2 < m.2
      · rw [if_pos hc, Option.some.injEq] at h
        subst h
        rcases List.mem_cons.mp hq with hqa | hqr
        · exact le_of_lt (lt_of_eq_of_lt (congrArg Prod.snd hqa) hc)
        · exact ih hr q hqr
      · rw [if_neg hc, Option.some.injEq] at h
        subst h
        rcases List.mem_cons.mp hq with hqa | hqr
        · exact le_of_eq (congrArg Prod.snd hqa)
        · exact le_trans (ih hr q hqr) (le_of_not_lt hc)

theorem idxmax_first {K : Type} [LinearOrder K] :
    ∀ {l : List (K × ℚ)} {p : K × ℚ}, l.Pairwise (fun a b => a.1 < b.1) →
      idxmax l = some p → ∀ q ∈ l, q.2 = p.2 → p.1 ≤ q.1 := by
  intro l
  induction l with
  | nil => intro p _ h; simp [idxmax] at h
  | cons a rest ih =>
    intro p hpw h q hq hq2
    rw [List.pairwise_cons] at hpw
    cases hr : idxmax rest with
    | none =>
      rw [idxmax_cons_of_none a rest hr, Option.some.injEq] at h
      subst h
      rcases List.mem_cons.mp hq with hqa | hqr
      · exact le_of_eq (congrArg Prod.fst hqa).symm
      · rw [idxmax_eq_none.mp hr] at hqr
        exact absurd hqr (List.not_mem_nil q)
    | some m =>
      rw [idxmax_cons_of_some a rest m hr] at h
      by_cases hc : a.2 < m.2
      · rw [if_pos hc, Option.some.injEq] at h
        subst h
        rcases List.mem_cons.mp hq with hqa | hqr
        · exfalso
          have ha : q.2 = a.2 := congrArg Prod.snd hqa
          rw [hq2] at ha
          rw [ha] at hc
          exact lt_irrefl _ hc
        · exact ih hpw.2 hr q hqr hq2
      · rw [if_neg hc, Option.some.injEq] at h
        subst h
        rcases List.mem_cons.mp hq with hqa | hqr
        · exact le_of_eq (congrArg Prod.fst hqa).symm
        · exact le_of_lt (hpw.1 q hqr)

theorem seriesMax_cons (v : ℚ) (rest : List ℚ) :
    seriesMax (v :: rest) =
      match seriesMax rest with
      | none => some v
      | some w => some (max v w) := rfl

theorem seriesMax_of_idxmax {K : Type} :
    ∀ {l : List (K × ℚ)} {p : K × ℚ}, idxmax l = some p →
      seriesMax (l.map Prod.snd) = some p.2 := by
  intro l
  induction l with
  | nil => intro p h; simp [idxmax] at h
  | cons a rest ih =>
    intro p h
    cases hr : idxmax rest with
    | none =>
      rw [idxmax_cons_of_none a rest hr, Option.some.injEq] at h
      subst h
      rw [idxmax_eq_none.mp hr]
      rfl
    | some m =>
      rw [idxmax_cons_of_some a rest m hr] at h
      rw [List.map_cons, seriesMax_cons, ih hr]
      by_cases hc : a.2 < m.2
      · rw [if_pos hc, Option.some.injEq] at h
        subst h
        exact congrArg some (max_eq_right (le_of_lt hc))
      · rw [if_neg hc, Option.some.injEq] at h
        subst h
        exact congrArg some (max_eq_left (le_of_not_lt hc))

theorem sum_filter_or (l : Dataset) (val : Row → ℚ) (p q : Row → Bool)
    (h : ∀ r ∈ l, p r = true → q r = false) :
    ((l.filter (fun r => p r || q r)).map val).sum
      = ((l.filter p).map val).sum + ((l.filter q).map val).sum := by
  induction l with
  | nil => simp
  | cons a rest ih =>
    have ih := ih (fun r hr => h r (List.mem_cons_of_mem a hr))
    by_cases hp : p a = true
    · have hq : q a = false := h a (List.mem_cons_self a rest) hp
      simp only [List.filter_cons, hp, hq, Bool.true_or, if_pos, Bool.false_eq_true,
        if_false, List.map_cons, List.sum_cons, ih]
      ring
    · by_cases hq : q a = true
      · simp only [List.filter_cons, hp, hq, Bool.false_or, Bool.false_eq_true, if_false,
          if_pos, List.map_cons, List.sum_cons, ih]
        ring
      · simp only [List.filter_cons, hp, hq, Bool.false_or, Bool.false_eq_true, if_false, ih]

theorem sum_groups {K : Type} [DecidableEq K] (l : Dataset) (key : Row → K) (val : Row → ℚ) :
    ∀ ks : List K, ks.Nodup →
      (ks.map (fun k => ((l.filter (fun r => decide (key r = k))).map val).sum)).sum
        = ((l.filter (fun r => decide (key r ∈ ks))).map val).sum := by
  intro ks
  induction ks with
  | nil => intro _; simp
  | cons k ks ih =>
    intro hnd
    rw [List.nodup_cons] at hnd
    have hdis : ∀ r ∈ l, decide (key r = k) = true → decide (key r ∈ ks) = false := by
      intro r _ hr
      rw [decide_eq_true_eq] at hr
      rw [decide_eq_false_iff_not, hr]
      exact hnd.1
    have hpred : ∀ r ∈ l,
        decide (key r ∈ k :: ks) = (decide (key r = k) || decide (key r ∈ ks)) := by
      intro r _
      simp [List.mem_cons]
    rw [List.map_cons, List.sum_cons, ih hnd.2, List.filter_congr hpred,
      sum_filter_or l val _ _ hdis]

theorem aggregate_sum_eq_total {K : Type} [LinearOrder K] [DecidableEq K] (view : Dataset)
    (key : Row → K) (val : Row → ℚ) :
    ((aggregate view key val List.sum).map Prod.snd).sum = (view.map val).sum := by
  rw [aggregate, List.map_map]
  have h1 : (Prod.snd ∘ fun k =>
        (k, List.sum ((view.filter (fun r => decide (key r = k))).map val)))
      = fun k => ((view.filter (fun r => decide (key r = k))).map val).sum := rfl
  rw [h1, sum_groups view key val _ (nodup_sortedKeys (view.map key))]
  have h2 : view.filter (fun r => decide (key r ∈ sortedKeys (view.map key))) = view := by
    rw [List.filter_eq_self]
    intro r hr
    rw [decide_eq_true_eq, mem_sortedKeys]
    exact List.mem_map_of_mem key hr
  rw [h2]

theorem assignOrderDate_eq (frame : Dataset) : assignOrderDate frame = frame :=
  List.map_id frame

/-- Brute-force row scan following the spec words for `total_sales`: the sum of
`total_price` over all rows of the view, 0 if the view is empty. -/
def specTotalSales : Dataset → ℚ
  | [] => 0
  | r :: rest => r.total_price + specTotalSales rest

/-- C1: on an empty filtered view the source metrics do not produce an
explicit recoverable EmptyViewMetric result: grouping by name yields an empty
series, so `idxmax` has nothing to return — in pandas an unhandled
`ValueError` (`none` here) — and the mean is NaN (`none` here), with no flag
the caller can branch on.  Evaluated at a category absent from the worked
dataset, which makes the filtered view empty. -/
theorem C1_empty_view_metrics :
    filterByCategory scenarioData "Sicilian" = [] ∧
    top_selling_pizza (filterByCategory scenarioData "Sicilian") = none ∧
    top_pizza_sales (filterByCategory scenarioData "Sicilian") = none ∧
    average_price (filterByCategory scenarioData "Sicilian") = none := by
  refine ⟨?_, ?_, ?_, ?_⟩ <;> rfl

/-- C2: equality filtering on `pizza_category` keeps exactly the rows whose
category is the filter value — every result row matches, no matching row is
dropped — and the result is a sublist of the dataset, so the relative row
order is preserved. -/
theorem C2_filter_by_category (d : Dataset) (c : String) :
    (∀ r ∈ filterByCategory d c, r.pizza_category = c) ∧
    (∀ r ∈ d, r.pizza_category = c → r ∈ filterByCategory d c) ∧
    (filterByCategory d c).Sublist d := by
  refine ⟨?_, ?_, List.filter_sublist d⟩
  · intro r hr
    exact of_decide_eq_true (List.mem_filter.mp hr).2
  · intro r hr hc
    exact List.mem_filter.mpr ⟨hr, decide_eq_true hc⟩

theorem C2_filter_by_category_witness :
    margherita1 ∈ filterByCategory scenarioData "Classic" :=
  (C2_filter_by_category scenarioData "Classic").2.1 margherita1 (by decide) (by decide)

/-- C3: on a non-empty view the top pizza is the name whose per-name sum of
`total_price` is maximal, `top_pizza_sales` is that maximal sum, and among
names tied for the maximal sum the lexicographically first is selected
(pandas sorts the group keys ascending and `idxmax` takes the first maximal
entry). -/
theorem C3_top_pizza (view : Dataset) (h : view ≠ []) :
    ∃ n s, top_selling_pizza view = some n ∧ top_pizza_sales view = some s ∧
      (∃ r ∈ view, r.pizza_name = n) ∧
      nameSum view n = s ∧
      (∀ r ∈ view, nameSum view r.pizza_name ≤ s) ∧
      (∀ r ∈ view, nameSum view r.pizza_name = s → n ≤ r.pizza_name) := by
  have hne : groupSumByName view ≠ [] := by
    intro hnil
    rw [groupSumByName, aggregate] at hnil
    rw [List.map_eq_nil_iff] at hnil
    rw [sortedKeys_eq_nil_iff, List.map_eq_nil_iff] at hnil
    exact h hnil
  cases hidx : idxmax (groupSumByName view) with
  | none => exact absurd (idxmax_eq_none.mp hidx) hne
  | some p =>
    have hmem := mem_aggregate.mp (idxmax_mem hidx)
    refine ⟨p.1, p.2, ?_, ?_, ?_, ?_, ?_, ?_⟩
    · rw [top_selling_pizza, hidx]; rfl
    · rw [top_pizza_sales, seriesMax_of_idxmax hidx]
    · rcases List.mem_map.mp hmem.1 with ⟨r, hr, hrn⟩
      exact ⟨r, hr, hrn⟩
    · exact hmem.2.symm
    · intro r hr
      have hpair : (r.pizza_name, nameSum view r.pizza_name) ∈ groupSumByName view :=
        mem_aggregate.mpr ⟨List.mem_map_of_mem (fun r => r.pizza_name) hr, rfl⟩
      exact idxmax_le hidx _ hpair
    · intro r hr hs
      have hpw : (groupSumByName view).Pairwise (fun a b => a.1 < b.1) := by
        rw [groupSumByName, aggregate]
        exact List.pairwise_map.mpr (pairwise_lt_sortedKeys _)
      have hpair : (r.pizza_name, nameSum view r.pizza_name) ∈ groupSumByName view :=
        mem_aggregate.mpr ⟨List.mem_map_of_mem (fun r => r.pizza_name) hr, rfl⟩
      exact idxmax_first hpw hidx _ hpair hs

theorem C3_top_pizza_witness :
    filterByCategory scenarioData "Classic" ≠ [] ∧
    (∃ n s, top_selling_pizza (filterByCategory scenarioData "Classic") = some n ∧
      top_pizza_sales (filterByCategory scenarioData "Classic") = some s ∧
      (∃ r ∈ filterByCategory scenarioData "Classic", r.pizza_name = n) ∧
      nameSum (filterByCategory scenarioData "Classic") n = s ∧
      (∀ r ∈ filterByCategory scenarioData "Classic",
        nameSum (filterByCategory scenarioData "Classic") r.pizza_name ≤ s) ∧
      (∀ r ∈ filterByCategory scenarioData "Classic",
        nameSum (filterByCategory scenarioData "Classic") r.pizza_name = s →
          n ≤ r.pizza_name)) :=
  ⟨by decide, C3_top_pizza (filterByCategory scenarioData "Classic") (by decide)⟩

/-- C4: a table whose columns lack `order_date` flows through `load_data`
unchanged — the guard at lines 12-13 merely skips the date conversion, no
schema-validation error is raised anywhere, and processing continues. -/
theorem C4_missing_column_passes :
    load_data { columns := ["pizza_category", "pizza_name", "pizza_size",
                            "unit_price", "total_price"], dates_parsed := false }
      = { columns := ["pizza_category", "pizza_name", "pizza_size",
                      "unit_price", "total_price"], dates_parsed := false } := by
  decide

/-- C5: the daily time series is strictly ascending in date with no duplicate
dates, contains exactly the dates occurring in the view (none synthesized,
none dropped), each paired with the sum of `total_price` on that date, and is
empty on the empty view. -/
theorem C5_bucketize (view : Dataset) :
    (sales_over_time view).Pairwise (fun a b => a.1 < b.1) ∧
    ((sales_over_time view).map Prod.fst).Nodup ∧
    (∀ d : ℕ, (∃ p ∈ sales_over_time view, p.1 = d) ↔ ∃ r ∈ view, r.order_date = d) ∧
    (∀ p ∈ sales_over_time view, p.2 = dateSum view p.1) ∧
    (view = [] → sales_over_time view = []) := by
  refine ⟨?_, ?_, ?_, ?_, ?_⟩
  · rw [sales_over_time, aggregate]
    exact List.pairwise_map.mpr (pairwise_lt_sortedKeys _)
  · rw [sales_over_time, aggregate_map_fst]
    exact nodup_sortedKeys _
  · intro d
    constructor
    · intro ⟨p, hp, hpd⟩
      have := (mem_aggregate.mp hp).1
      rw [hpd] at this
      rcases List.mem_map.mp this with ⟨r, hr, hrd⟩
      exact ⟨r, hr, hrd⟩
    · intro ⟨r, hr, hrd⟩
      refine ⟨(d, dateSum view d), ?_, rfl⟩
      refine mem_aggregate.mpr ⟨?_, rfl⟩
      exact List.mem_map.mpr ⟨r, hr, hrd⟩
  · intro p hp
    exact (mem_aggregate.mp hp).2
  · intro h
    rw [h]
    rfl

theorem C5_bucketize_witness :
    (∃ p ∈ sales_over_time scenarioData, p.1 = 2) ↔
      ∃ r ∈ scenarioData, r.order_date = 2 :=
  (C5_bucketize scenarioData).2.2.1 2

/-- C6: `total_sales` agrees with the spec's brute-force row scan — the sum of
`total_price` over all rows of the view — and is 0 on the empty view. -/
theorem C6_total_sales (view : Dataset) :
    total_sales view = specTotalSales view ∧ total_sales [] = 0 := by
  refine ⟨?_, rfl⟩
  induction view with
  | nil => rfl
  | cons r rest ih =>
    rw [total_sales, List.map_cons, List.sum_cons, specTotalSales]
    rw [total_sales] at ih
    rw [ih]

/-- C7: the per-size sums produced by `aggregate` add up to `total_sales` of
the same view — the size groups partition the view, so the partition sums to
the whole. -/
theorem C7_partition (view : Dataset) :
    ((aggregate view (fun r => r.pizza_size) (fun r => r.total_price) List.sum).map
      Prod.snd).sum = total_sales view :=
  aggregate_sum_eq_total view (fun r => r.pizza_size) (fun r => r.total_price)

/-- C8: for any view, grouping column, value column and operation, the keys of
the `aggregate` result are exactly the distinct grouping values present in the
view, each appearing once, and the empty view yields the empty mapping rather
than an error. -/
theorem C8_aggregate_keys {K : Type} [LinearOrder K] [DecidableEq K]
    (view : Dataset) (key : Row → K) (val : Row → ℚ) (op : List ℚ → ℚ) :
    ((aggregate view key val op).map Prod.fst).Nodup ∧
    (∀ k : K, k ∈ (aggregate view key val op).map Prod.fst ↔ ∃ r ∈ view, key r = k) ∧
    (view = [] → aggregate view key val op = []) := by
  refine ⟨?_, ?_, ?_⟩
  · rw [aggregate_map_fst]
    exact nodup_sortedKeys _
  · intro k
    rw [aggregate_map_fst, mem_sortedKeys, List.mem_map]
  · intro h
    rw [h]
    rfl

theorem C8_aggregate_keys_witness :
    "M" ∈ (aggregate scenarioData (fun r => r.pizza_size) (fun r => r.total_price)
        List.sum).map Prod.fst
      ↔ ∃ r ∈ scenarioData, r.pizza_size = "M" :=
  (C8_aggregate_keys scenarioData (fun r => r.pizza_size) (fun r => r.total_price)
    List.sum).2.1 "M"

/-- C9: neither page body mutates the dataset: running the full analysis and
visualization pipelines returns the dataset exactly as loaded (the one column
assignment lands on the copy produced by the boolean-mask filter), and the
derived filtered views are row subsets of the dataset. -/
theorem C9_no_mutation (d : Dataset) (category pizza_filter : String)
    (compare : List String) :
    (data_analysis d category compare).data_after = d ∧
    (data_visualization d pizza_filter).data_after = d ∧
    (data_analysis d category compare).download_out.Sublist d ∧
    (data_visualization d pizza_filter).table_out.Sublist d := by
  refine ⟨rfl, rfl, ?_, ?_⟩
  · show (assignOrderDate (filterByCategory d category)).Sublist d
    rw [assignOrderDate_eq]
    exact List.filter_sublist d
  · show (assignOrderDate (filterByCategory d pizza_filter)).Sublist d
    rw [assignOrderDate_eq]
    exact List.filter_sublist d

/-- C10: with an empty multiselect list the comparison step is skipped
(`if compare:` is false, no view is computed), and with a non-empty list the
comparison view exists and every row of it has a `pizza_name` in the list and
comes from the dataset. -/
theorem C10_comparison (d : Dataset) (category : String) (compare : List String) :
    (compare = [] → (data_analysis d category compare).comparison_out = none) ∧
    (compare ≠ [] →
      ∃ rows, (data_analysis d category compare).comparison_out = some rows ∧
        ∀ r ∈ rows, r.pizza_name ∈ compare ∧ r ∈ d) := by
  constructor
  · intro h
    rw [h]
    rfl
  · intro h
    cases compare with
    | nil => exact absurd rfl h
    | cons c cs =>
      refine ⟨d.filter (fun r => decide (r.pizza_name ∈ c :: cs)), rfl, ?_⟩
      intro r hr
      exact ⟨of_decide_eq_true (List.mem_filter.mp hr).2, (List.mem_filter.mp hr).1⟩

theorem C10_comparison_witness :
    (data_analysis scenarioData "Classic" []).comparison_out = none ∧
    (∃ rows, (data_analysis scenarioData "Classic" ["Margherita"]).comparison_out
        = some rows ∧
      ∀ r ∈ rows, r.pizza_name ∈ ["Margherita"] ∧ r ∈ scenarioData) :=
  ⟨(C10_comparison scenarioData "Classic" []).1 rfl,
   (C10_comparison scenarioData "Classic" ["Margherita"]).2 (by decide)⟩

end PizzaSales
